import Mathlib

/-!
Shallow embedding of the Game of Life engine of `src/gameoflife.rs`: the
rule model (`LifeRule`, `Rule`), neighbor counting, the two stepping
strategies (`GameOfLifeStd`, `GameOfLifeConvolution`), the checked cell
accessor and the field iterator, together with proofs of the spec's
claims about them.
-/

namespace GoL

/-- Embedding of `NeighborRule` (src/gameoflife.rs:11): which cells count as neighbors. -/
inductive NeighborRule where
  | moore
  | vonNeumann
deriving DecidableEq

/-- Embedding of `LifeRule` (src/gameoflife.rs:42): convenience forms for survival/birth
specifications.  `range a b` stands for the Rust half-open range `a..b`;
`raw` carries the 9-element boolean array. -/
inductive LifeRule where
  | one (n : Nat)
  | range (a b : Nat)
  | numbers (l : List Nat)
  | raw (l : List Bool)

/-- The write `return_array[i] = true` (src/gameoflife.rs:54): setting index `i` of a
boolean array; `none` models the Rust index-out-of-bounds panic when `i`
is not below the array length. -/
def setIndex (l : List Bool) (i : Nat) : Option (List Bool) :=
  if i < l.length then some (l.set i true) else none

/-- Folds `setIndex` over a list of indices, as the loops of
`LifeRule::into_array` do (src/gameoflife.rs:55-64). -/
def setIndices (l : List Bool) : List Nat → Option (List Bool)
  | [] => some l
  | i :: rest =>
    match setIndex l i with
    | some l2 => setIndices l2 rest
    | none => none

/-- The all-false array `[false; 9]` of src/gameoflife.rs:52. -/
def falseArray : List Bool := List.replicate 9 false

/-- Embedding of `LifeRule::into_array` (src/gameoflife.rs:51-68); `none` models an
index-out-of-bounds panic.  A Rust `for i in a..b` loop visits
`a, a+1, ..., b-1`, i.e. `List.range' a (b - a)`. -/
def LifeRule.intoArray : LifeRule → Option (List Bool)
  | .one n => setIndex falseArray n
  | .range a b => setIndices falseArray (List.range' a (b - a))
  | .numbers l => setIndices falseArray l
  | .raw l => some l

/-- Embedding of `Rule` (src/gameoflife.rs:77-82): survival/birth masks, decay depth
`state` (a `u8`), neighbor mode. -/
structure Rule where
  survival : List Bool
  birth : List Bool
  state : Nat
  neighbor : NeighborRule
deriving DecidableEq

/-- Embedding of `Rule::new` (src/gameoflife.rs:85-92): builds the rule from the
convenience forms; `none` models a panic inside `into_array`.  The
function performs no validation of `state` or of the neighbor mode. -/
def Rule.new (survival birth : LifeRule) (state : Nat) (neighbor : NeighborRule) :
    Option Rule :=
  match survival.intoArray, birth.intoArray with
  | some s, some b => some ⟨s, b, state, neighbor⟩
  | _, _ => none

/-- The simulation field, an `Array2<u8>` of shape `numx × numy`:
`GameOfLifeStd::new` (src/gameoflife.rs:208-218) reads `numx` from
`shape()[0]` and `numy` from `shape()[1]`, and cells are addressed as
`field[[x, y]]`.  `u8` cell contents are modelled as `Nat`. -/
structure Grid where
  numx : Nat
  numy : Nat
  cell : Nat → Nat → Nat

/-- Embedding of `GameOfLife::cell` of both strategies (src/gameoflife.rs:240-245 reads
through `field.get((x, y))` and the `RwLock`; src/gameoflife.rs:323-325 is
`field.get((x, y)).copied()`): `ndarray`'s checked `get`, `none` when
either index is out of bounds. -/
def cellAt (g : Grid) (x y : Nat) : Option Nat :=
  if x < g.numx ∧ y < g.numy then some (g.cell x y) else none

/-- The cast `(*x == self.rules.state) as usize`: 1 when the cell value equals the
alive state `s`, else 0. -/
def aliveInd (g : Grid) (s : Nat) (x y : Nat) : Nat :=
  if g.cell x y = s then 1 else 0

/-- Moore branch of `GameOfLifeStd::count_living_neighbors`
(src/gameoflife.rs:155-166): sum of alive indicators over the clipped
slice `left_border..right_border × top_border..bottom_border`, minus the
center's own indicator. -/
def mooreCount (g : Grid) (s : Nat) (x y : Nat) : Nat :=
  let rightBorder := if x + 1 < g.numx then x + 2 else g.numx
  let leftBorder := if 1 < x then x - 1 else 0
  let bottomBorder := if y + 1 < g.numy then y + 2 else g.numy
  let topBorder := if 1 < y then y - 1 else 0
  (∑ i in Finset.Ico leftBorder rightBorder, ∑ j in Finset.Ico topBorder bottomBorder,
    aliveInd g s i j) - aliveInd g s x y

/-- Indicator read through the checked accessor, as the
`if let Some(cell) = self.cell(..)` blocks do. -/
def aliveOptInd (s : Nat) : Option Nat → Nat
  | some c => if c = s then 1 else 0
  | none => 0

/-- Von Neumann branch of `GameOfLifeStd::count_living_neighbors`
(src/gameoflife.rs:167-186): the four axis neighbors read through `cell`,
with the `x - 1` and `y - 1` reads guarded by `x != 0` / `y != 0`. -/
def vnCount (g : Grid) (s : Nat) (x y : Nat) : Nat :=
  (if x ≠ 0 then aliveOptInd s (cellAt g (x - 1) y) else 0) +
    aliveOptInd s (cellAt g (x + 1) y) +
    (if y ≠ 0 then aliveOptInd s (cellAt g x (y - 1)) else 0) +
    aliveOptInd s (cellAt g x (y + 1))

/-- Embedding of `GameOfLifeStd::count_living_neighbors` (src/gameoflife.rs:153-188). -/
def countLivingNeighbors (r : Rule) (g : Grid) (x y : Nat) : Nat :=
  match r.neighbor with
  | .moore => mooreCount g r.state x y
  | .vonNeumann => vnCount g r.state x y

/-- The per-cell body of the `par_for_each` closure in
`GameOfLifeStd::compute_next_generation` (src/gameoflife.rs:225-236): a
birth or a survival writes `state` into the fresh buffer, otherwise a
positive cell decays by one, otherwise the buffer's default 0 remains. -/
def stdCellNext (r : Rule) (g : Grid) (x y : Nat) : Nat :=
  let count := countLivingNeighbors r g x y
  if r.birth.getD count false ∨ (g.cell x y = r.state ∧ r.survival.getD count false) then
    r.state
  else if g.cell x y ≠ 0 then g.cell x y - 1
  else 0

/-- Embedding of `GameOfLifeStd::compute_next_generation` (src/gameoflife.rs:221-238):
every cell of the fresh buffer is computed by `stdCellNext` from the
previous generation, then the buffer replaces the field. -/
def stdStep (r : Rule) (g : Grid) : Grid where
  numx := g.numx
  numy := g.numy
  cell := fun x y => stdCellNext r g x y

/-- Rust `u8` addition with wraparound: the release-profile semantics of the
`u8` array arithmetic in `GameOfLifeConvolution::compute_next_generation`
(in a debug build the same out-of-range operations panic instead). -/
def u8add (a b : Nat) : Nat := (a + b) % 256

/-- Rust `u8` subtraction with wraparound (see `u8add`). -/
def u8sub (a b : Nat) : Nat := (a + 256 - b % 256) % 256

/-- Rust `u8` multiplication with wraparound (see `u8add`). -/
def u8mul (a b : Nat) : Nat := a * b % 256

/-- The convolution kernels of src/gameoflife.rs:298-301. -/
def kernel : NeighborRule → List (List Nat)
  | .moore => [[1, 1, 1], [1, 0, 1], [1, 1, 1]]
  | .vonNeumann => [[0, 1, 0], [1, 0, 1], [0, 1, 0]]

/-- Zero-padded mask lookup: `(*elem == self.rules.state) as usize` on the
grid extended by the `BorderMode::Constant(0)` border. -/
def maskZ (g : Grid) (s : Nat) (i j : ℤ) : Nat :=
  if 0 ≤ i ∧ i < (g.numx : ℤ) ∧ 0 ≤ j ∧ j < (g.numy : ℤ) ∧ g.cell i.toNat j.toNat = s then 1
  else 0

/-- The call `convolve(&mask, &kernel, BorderMode::Constant(0), 0)` of
src/gameoflife.rs:303-308: the 3×3 kernels are symmetric under point
reflection, so the convolution equals the zero-padded correlation. -/
def convCount (nr : NeighborRule) (g : Grid) (s : Nat) (x y : Nat) : Nat :=
  ∑ di in Finset.range 3, ∑ dj in Finset.range 3,
    ((kernel nr).getD di []).getD dj 0 * maskZ g s ((x : ℤ) + di - 1) ((y : ℤ) + dj - 1)

/-- Embedding of `GameOfLifeConvolution::compute_next_generation`
(src/gameoflife.rs:297-321), element-wise: `temp` is the convolution
count, `survive`/`birth` the 0/1 masks of src/gameoflife.rs:310-311, and
the two assignment lines 312-320 combine them with `u8` array arithmetic
(modelled with wraparound, see `u8add`). -/
def convCellNext (r : Rule) (g : Grid) (x y : Nat) : Nat :=
  let temp := convCount r.neighbor g r.state x y
  let survive : Nat := if r.survival.getD temp false then 1 else 0
  let birth : Nat := if r.birth.getD temp false then 1 else 0
  let decayBase := u8mul (g.cell x y) (u8sub 1 survive)
  let decayed := if decayBase ≠ 0 then decayBase - 1 else 0
  let afterSurvive := u8add (u8mul (aliveInd g r.state x y) survive) decayed
  u8add afterSurvive (u8mul (u8sub r.state afterSurvive) birth)

/-- The new field assembled by `GameOfLifeConvolution::compute_next_generation`:
every cell is given by `convCellNext` on the previous generation. -/
def convStep (r : Rule) (g : Grid) : Grid where
  numx := g.numx
  numy := g.numy
  cell := fun x y => convCellNext r g x y

/-- Position update of `GameOfLifeIter::next` (src/gameoflife.rs:136-140):
`y += (x + 1) / numx; x = (x + 1) % numx`. -/
def iterStep (g : Grid) (p : Nat × Nat) : Nat × Nat :=
  ((p.1 + 1) % g.numx, p.2 + (p.1 + 1) / g.numx)

/-- The value one call of `GameOfLifeIter::next` returns from position
`p`: the cell at the already-updated position. -/
def iterVal (g : Grid) (p : Nat × Nat) : Option Nat :=
  cellAt g (iterStep g p).1 (iterStep g p).2

/-- Modelled from the spec's words, §4.2 Moore mode: the number of cells
of the 3×3 block centered at `(x, y)`, clipped to the grid bounds, other
than the center itself, whose state equals `s`; compared against the
source-derived `mooreCount`. -/
def specMooreCount (g : Grid) (s : Nat) (x y : Nat) : Nat :=
  ∑ i in Finset.range g.numx, ∑ j in Finset.range g.numy,
    if (x ≤ i + 1 ∧ i ≤ x + 1 ∧ y ≤ j + 1 ∧ j ≤ y + 1) ∧ (i, j) ≠ (x, y) ∧ g.cell i j = s
    then 1 else 0

/-- Modelled from the spec's words, §4.2 Von Neumann mode: among exactly
the four axis-adjacent positions, those inside `[0,numx) × [0,numy)`
whose state equals `s`; out-of-grid positions are omitted; compared
against the source-derived `vnCount`. -/
def specVnCount (g : Grid) (s : Nat) (x y : Nat) : Nat :=
  (([((x : ℤ) - 1, (y : ℤ)), ((x : ℤ) + 1, (y : ℤ)),
      ((x : ℤ), (y : ℤ) - 1), ((x : ℤ), (y : ℤ) + 1)]).filter
    (fun p => decide (0 ≤ p.1 ∧ p.1 < (g.numx : ℤ) ∧ 0 ≤ p.2 ∧ p.2 < (g.numy : ℤ) ∧
      g.cell p.1.toNat p.2.toNat = s))).length

/-- Modelled from the spec's words, §4.3 steps 2-4: the per-cell
transition from the old value and the neighbor count; compared against
the source-derived `stdStep`. -/
def specCellNext (r : Rule) (old count : Nat) : Nat :=
  if r.birth.getD count false ∨ (old = r.state ∧ r.survival.getD count false) then r.state
  else if 0 < old then old - 1
  else 0


/-! ### Claim C2: cell-wise contract of the direct-update step -/

/-- C2: one call of `GameOfLifeStd::compute_next_generation` produces a
grid of identical dimensions in which every cell with neighbor count
`count` from the previous generation becomes `rule.state` on a birth or
an alive survival, decays by one when positive, and stays 0 otherwise. -/
theorem claim2_std_step_cellwise (r : Rule) (g : Grid) :
    (stdStep r g).numx = g.numx ∧ (stdStep r g).numy = g.numy ∧
      ∀ x y, (stdStep r g).cell x y =
        specCellNext r (g.cell x y) (countLivingNeighbors r g x y) := by
  refine ⟨rfl, rfl, fun x y => ?_⟩
  simp only [stdStep, stdCellNext, specCellNext]
  split_ifs <;> omega

/-! ### Claim C4: checked cell access -/

/-- C4: for both strategies, `cell(x, y)` returns the stored state when
`x < numx` and `y < numy` and an absent value for any out-of-range
coordinate; it neither panics nor wraps indices. -/
theorem claim4_cell_in_bounds_or_none (g : Grid) (x y : Nat) :
    (x < g.numx → y < g.numy → cellAt g x y = some (g.cell x y)) ∧
      (g.numx ≤ x ∨ g.numy ≤ y → cellAt g x y = none) := by
  constructor
  · intro hx hy
    simp [cellAt, hx, hy]
  · intro h
    have hc : ¬(x < g.numx ∧ y < g.numy) := by omega
    simp [cellAt, hc]

/-- Witness for C4 on a concrete 2×2 grid: in-bounds and out-of-bounds
access. -/
theorem claim4_witness :
    (cellAt ⟨2, 2, fun x y => x + 2 * y⟩ 1 0 = some 1) ∧
      cellAt ⟨2, 2, fun x y => x + 2 * y⟩ 2 0 = none := by
  constructor
  · exact (claim4_cell_in_bounds_or_none ⟨2, 2, fun x y => x + 2 * y⟩ 1 0).1
      (by decide) (by decide)
  · exact (claim4_cell_in_bounds_or_none ⟨2, 2, fun x y => x + 2 * y⟩ 2 0).2
      (Or.inl (by decide))

/-! ### Claim C1: the two strategies diverge -/

/-- Input on which the strategies disagree: a 3×3 grid whose center cell
is alive at state 2, all other cells dead. -/
def centerAlive3 : Grid := ⟨3, 3, fun x y => if x = 1 ∧ y = 1 then 2 else 0⟩

/-- Rule for the divergence input: survive on 0 neighbors, never give
birth, alive state 2, Moore neighborhood. -/
def survivalZeroRule : Rule :=
  ⟨[true, false, false, false, false, false, false, false, false],
    List.replicate 9 false, 2, .moore⟩

/-- C1: on `centerAlive3` with `survivalZeroRule`, the direct strategy
keeps the surviving center cell at state 2 while the convolution
strategy writes 1 (its survive mask is not scaled by `state`,
src/gameoflife.rs:312): the strategies' outputs differ after one
generation. -/
theorem claim1_strategies_disagree :
    (stdStep survivalZeroRule centerAlive3).cell 1 1 = 2 ∧
      (convStep survivalZeroRule centerAlive3).cell 1 1 = 1 ∧
      (stdStep survivalZeroRule centerAlive3).cell 1 1 ≠
        (convStep survivalZeroRule centerAlive3).cell 1 1 :=
  ⟨by decide, by decide, by decide⟩

/-! ### Claim C8: the state-range invariant -/

/-- Degenerate rule with `state == 0`: every cell of a zeroed grid counts
as alive; survive on 1 neighbor, never give birth. -/
def stateZeroRule : Rule :=
  ⟨[false, true, false, false, false, false, false, false, false],
    List.replicate 9 false, 0, .moore⟩

/-- A zeroed 1×2 grid: all cells within `[0, state]` for `state = 0`. -/
def zeroPair : Grid := ⟨1, 2, fun _ _ => 0⟩

/-- Counterexample to C8 as stated: on a grid whose every cell lies in
`[0, rule.state]` for the `state == 0` rule, one convolution step leaves
cell (0,0) at 1, strictly above `rule.state` (in a debug build the same
step panics on `u8` underflow at src/gameoflife.rs:320). -/
theorem claim8_counterexample :
    zeroPair.cell 0 0 ≤ stateZeroRule.state ∧
      zeroPair.cell 0 1 ≤ stateZeroRule.state ∧
      stateZeroRule.state < (convStep stateZeroRule zeroPair).cell 0 0 :=
  ⟨by decide, by decide, by decide⟩

/-! ### Claim C3: `Rule::new` does not validate -/

/-- Counterexample to C3 as stated: `Rule::new` succeeds (no
`InvalidRuleError` exists in the code) even with `state == 0` combined
with Von Neumann mode and a count above 4. -/
theorem claim3_counterexample :
    (Rule.new (.one 5) (.one 3) 0 .vonNeumann).isSome = true := by
  decide

/-! ### `into_array` machinery shared by claims C3 and C9 -/

/-- Every index a `LifeRule` makes `into_array` write lies below 9: the
condition under which the writes cannot panic. -/
def encodedOk : LifeRule → Prop
  | .one n => n < 9
  | .range a b => ∀ i ∈ List.range' a (b - a), i < 9
  | .numbers l => ∀ i ∈ l, i < 9
  | .raw _ => True

/-- The fold `setIndices` succeeds when every index is below the array length, and
the result flags exactly the previously set flags and the visited
indices. -/
theorem setIndices_ok (l : List Nat) (acc : List Bool)
    (h : ∀ i ∈ l, i < acc.length) :
    ∃ m, setIndices acc l = some m ∧ m.length = acc.length ∧
      ∀ j, m.getD j false = (acc.getD j false || decide (j ∈ l)) := by
  induction l generalizing acc with
  | nil => exact ⟨acc, rfl, rfl, by simp⟩
  | cons i rest ih =>
    have hi : i < acc.length := h i (List.mem_cons_self ..)
    obtain ⟨m, hm, hlen, hget⟩ := ih (acc.set i true)
      (fun j hj => (List.length_set acc i true).symm ▸ h j (List.mem_cons_of_mem _ hj))
    refine ⟨m, ?_, by rw [hlen, List.length_set], fun j => ?_⟩
    · simp [setIndices, setIndex, hi, hm]
    · rw [hget j]
      by_cases hij : i = j
      · subst hij
        rw [List.getD_eq_getElem?_getD, List.getElem?_set, if_pos rfl, if_pos hi]
        simp
      · rw [List.getD_eq_getElem?_getD, List.getElem?_set, if_neg hij,
          ← List.getD_eq_getElem?_getD]
        simp [List.mem_cons, Ne.symm hij]

/-- Reading the all-false base array always yields `false`. -/
theorem falseArray_getD (j : Nat) : falseArray.getD j false = false := by
  rw [falseArray, List.getD_eq_getElem?_getD, List.getElem?_replicate]
  split <;> rfl

/-- The conversion `into_array` cannot panic when every encoded index is below 9. -/
theorem intoArray_isSome {lr : LifeRule} (h : encodedOk lr) :
    lr.intoArray.isSome := by
  cases lr with
  | one n =>
    have hn : n < 9 := h
    simp [LifeRule.intoArray, setIndex, falseArray, hn]
  | range a b =>
    obtain ⟨m, hm, -, -⟩ := setIndices_ok (List.range' a (b - a)) falseArray
      (by simpa [falseArray, encodedOk] using h)
    simp [LifeRule.intoArray, hm]
  | numbers l =>
    obtain ⟨m, hm, -, -⟩ := setIndices_ok l falseArray
      (by simpa [falseArray, encodedOk] using h)
    simp [LifeRule.intoArray, hm]
  | raw l => simp [LifeRule.intoArray]

/-! ### Claim C3 (amended): `Rule::new` performs no validation -/

/-- C3 (amended): whenever every encoded count is at most 8, `Rule::new`
succeeds — whatever `state` (including 0) and whatever neighbor mode
(including Von Neumann with counts above 4) — and a count above 8 makes
it panic (`none`) instead of returning an `InvalidRuleError`. -/
theorem claim3_new_never_validates (s b : LifeRule) (st : Nat)
    (n : NeighborRule) (hs : encodedOk s) (hb : encodedOk b) :
    (∃ r, Rule.new s b st n = some r ∧ r.state = st ∧ r.neighbor = n) ∧
      Rule.new (.one 9) (.one 0) 1 .moore = none := by
  refine ⟨?_, by decide⟩
  obtain ⟨sa, hsa⟩ := Option.isSome_iff_exists.mp (intoArray_isSome hs)
  obtain ⟨ba, hba⟩ := Option.isSome_iff_exists.mp (intoArray_isSome hb)
  exact ⟨⟨sa, ba, st, n⟩, by simp [Rule.new, hsa, hba], rfl, rfl⟩

/-- Witness for C3 (amended): a rule with `state == 0`, Von Neumann mode
and a survival count of 5 is accepted, and an encoded count of 9
panics. -/
theorem claim3_witness :
    (∃ r, Rule.new (.one 5) (.one 3) 0 .vonNeumann = some r ∧
        r.state = 0 ∧ r.neighbor = .vonNeumann) ∧
      Rule.new (.one 9) (.one 0) 1 .moore = none :=
  claim3_new_never_validates (.one 5) (.one 3) 0 .vonNeumann
    (by simp [encodedOk]) (by simp [encodedOk])

/-! ### Claim C9: normalization of the `LifeRule` convenience forms -/

/-- C9: `One n` and `Numbers [n]` normalize identically; `Range a b`
normalizes like the explicit list `a, a+1, ..., b-1`; and `Numbers l`
yields the mask whose entry `i` is true exactly when `i` occurs in
`l`. -/
theorem claim9_liferule_normalization (n a b : Nat) (l : List Nat)
    (hn : n ≤ 8) (hb : b ≤ 9) (hl : ∀ i ∈ l, i ≤ 8) :
    LifeRule.intoArray (.one n) = LifeRule.intoArray (.numbers [n]) ∧
      LifeRule.intoArray (.range a b) =
        LifeRule.intoArray (.numbers (List.range' a (b - a))) ∧
      ∃ m, LifeRule.intoArray (.numbers l) = some m ∧
        ∀ i, i ≤ 8 → (m.getD i false = true ↔ i ∈ l) := by
  refine ⟨?_, rfl, ?_⟩
  · cases h : setIndex falseArray n <;>
      simp [LifeRule.intoArray, setIndices, h]
  · obtain ⟨m, hm, -, hget⟩ := setIndices_ok l falseArray
      (by simpa [falseArray, Nat.lt_succ_iff] using hl)
    refine ⟨m, hm, fun i _ => ?_⟩
    rw [hget i, falseArray_getD]
    simp

/-- Witness for C9 at `n = 3`, the range `1..4` and the list `[2, 5]`. -/
theorem claim9_witness :
    LifeRule.intoArray (.one 3) = LifeRule.intoArray (.numbers [3]) ∧
      LifeRule.intoArray (.range 1 4) =
        LifeRule.intoArray (.numbers (List.range' 1 (4 - 1))) ∧
      ∃ m, LifeRule.intoArray (.numbers [2, 5]) = some m ∧
        ∀ i, i ≤ 8 → (m.getD i false = true ↔ i ∈ [2, 5]) :=
  claim9_liferule_normalization 3 1 4 [2, 5] (by decide) (by decide) (by decide)

/-- One direct-update step never raises a cell above `state` when the
cell was at most `state`. -/
theorem stdCellNext_le (r : Rule) (g : Grid) (x y : Nat)
    (h : g.cell x y ≤ r.state) : stdCellNext r g x y ≤ r.state := by
  simp only [stdCellNext]
  split_ifs <;> omega

/-- One convolution step never raises a cell above `state` when the cell
was at most `state`, provided `1 ≤ state ≤ 255`. -/
theorem convCellNext_le (r : Rule) (g : Grid) (x y : Nat)
    (h1 : 1 ≤ r.state) (h255 : r.state ≤ 255) (h : g.cell x y ≤ r.state) :
    convCellNext r g x y ≤ r.state := by
  simp only [convCellNext, u8add, u8sub, u8mul, aliveInd]
  split_ifs <;> (try norm_num) <;> omega

/-- C8 (amended with `1 ≤ state`): from a grid whose in-range cells all
lie in `[0, state]`, any number of generations of either strategy keeps
every in-range cell in `[0, state]`. -/
theorem claim8_state_range_invariant (r : Rule) (g : Grid) (n x y : Nat)
    (h1 : 1 ≤ r.state) (h255 : r.state ≤ 255)
    (hg : ∀ u v, u < g.numx → v < g.numy → g.cell u v ≤ r.state)
    (hx : x < g.numx) (hy : y < g.numy) :
    ((stdStep r)^[n] g).cell x y ≤ r.state ∧
      ((convStep r)^[n] g).cell x y ≤ r.state := by
  induction n with
  | zero => exact ⟨hg x y hx hy, hg x y hx hy⟩
  | succ n ih =>
    rw [Function.iterate_succ_apply', Function.iterate_succ_apply']
    exact ⟨stdCellNext_le _ _ _ _ ih.1, convCellNext_le _ _ _ _ h1 h255 ih.2⟩

/-- All-ones 2×2 grid, in range for a rule with `state = 1`. -/
def onesGrid2 : Grid := ⟨2, 2, fun _ _ => 1⟩

/-- The standard Life rule: survive on 2 or 3, birth on 3, `state = 1`,
Moore neighborhood. -/
def blockRule : Rule :=
  ⟨[false, false, true, true, false, false, false, false, false],
    [false, false, false, true, false, false, false, false, false], 1, .moore⟩

/-- Witness for C8 (amended) after one generation of each strategy. -/
theorem claim8_witness :
    ((stdStep blockRule)^[1] onesGrid2).cell 0 0 ≤ blockRule.state ∧
      ((convStep blockRule)^[1] onesGrid2).cell 0 0 ≤ blockRule.state :=
  claim8_state_range_invariant blockRule onesGrid2 1 0 0 (by decide) (by decide)
    (fun _ _ _ _ => Nat.le_refl 1) (by decide) (by decide)

/-! ### Claim C7: decay semantics -/

/-- When neither the survival nor the birth mask fires at a cell, the
direct-update step just decays it (`- 1` truncated at 0). -/
theorem stdCellNext_no_rule (r : Rule) (g : Grid) (x y : Nat)
    (hs : r.survival.getD (countLivingNeighbors r g x y) false = false)
    (hb : r.birth.getD (countLivingNeighbors r g x y) false = false) :
    stdCellNext r g x y = g.cell x y - 1 := by
  simp only [stdCellNext, hs, hb, Bool.false_eq_true, false_or, and_false, if_false]
  split_ifs <;> omega

/-- When neither the survival nor the birth mask fires at a cell, the
convolution step also just decays it, provided the cell is a `u8`
value. -/
theorem convCellNext_no_rule (r : Rule) (g : Grid) (x y : Nat)
    (hcell : g.cell x y ≤ 255)
    (hs : r.survival.getD (convCount r.neighbor g r.state x y) false = false)
    (hb : r.birth.getD (convCount r.neighbor g r.state x y) false = false) :
    convCellNext r g x y = g.cell x y - 1 := by
  simp only [convCellNext, hs, hb, Bool.false_eq_true, if_false]
  simp only [u8add, u8sub, u8mul, aliveInd]
  norm_num
  split_ifs <;> omega

/-- C7: a cell that starts alive and satisfies neither a survival nor a
birth condition in any generation (under each strategy's own counting)
holds `state - j` after `j` generations: it steps down through
`state-1, ..., 1, 0` and then stays at the absorbing 0. -/
theorem claim7_decay_to_zero (r : Rule) (g : Grid) (x y j : Nat)
    (hstate : 1 < r.state) (h255 : r.state ≤ 255)
    (hstart : g.cell x y = r.state)
    (hstd : ∀ k,
      r.survival.getD (countLivingNeighbors r ((stdStep r)^[k] g) x y) false = false ∧
        r.birth.getD (countLivingNeighbors r ((stdStep r)^[k] g) x y) false = false)
    (hconv : ∀ k,
      r.survival.getD (convCount r.neighbor ((convStep r)^[k] g) r.state x y) false = false ∧
        r.birth.getD (convCount r.neighbor ((convStep r)^[k] g) r.state x y) false = false) :
    ((stdStep r)^[j] g).cell x y = r.state - j ∧
      ((convStep r)^[j] g).cell x y = r.state - j := by
  induction j with
  | zero => constructor <;> simpa using hstart
  | succ j ih =>
    obtain ⟨ihs, ihc⟩ := ih
    constructor
    · rw [Function.iterate_succ_apply']
      obtain ⟨hs, hb⟩ := hstd j
      show stdCellNext r ((stdStep r)^[j] g) x y = _
      rw [stdCellNext_no_rule _ _ _ _ hs hb, ihs]
      omega
    · rw [Function.iterate_succ_apply']
      obtain ⟨hs, hb⟩ := hconv j
      show convCellNext r ((convStep r)^[j] g) x y = _
      rw [convCellNext_no_rule _ _ _ _ (by omega) hs hb, ihc]
      omega

/-- A single cell starting alive at state 3. -/
def oneCell3 : Grid := ⟨1, 1, fun _ _ => 3⟩

/-- A rule that never lets anything survive or be born, with decay depth
3. -/
def decayRule : Rule := ⟨falseArray, falseArray, 3, .moore⟩

/-- Witness for C7: after 2 generations the lone cell has decayed from 3
to 1 under both strategies. -/
theorem claim7_witness :
    ((stdStep decayRule)^[2] oneCell3).cell 0 0 = 1 ∧
      ((convStep decayRule)^[2] oneCell3).cell 0 0 = 1 :=
  claim7_decay_to_zero decayRule oneCell3 0 0 2 (by decide) (by decide) rfl
    (fun _ => ⟨falseArray_getD _, falseArray_getD _⟩)
    (fun _ => ⟨falseArray_getD _, falseArray_getD _⟩)

/-! ### Claim C10: the field iterator skips cell (0,0) -/

/-- C10: starting from `(0, 0)`, the iterator's position after `m` calls
is `(m % numx, m / numx)` — it advances before reading, so no call ever
sits at the origin again, the first call reads the cell at `(1, 0)`, and
call `k + 1` reads the cell at row-major position `k + 1`. -/
theorem claim10_iterator_skips_origin (g : Grid) (k : Nat) (h : 1 < g.numx) :
    (iterStep g)^[k + 1] (0, 0) = ((k + 1) % g.numx, (k + 1) / g.numx) ∧
      (iterStep g)^[k + 1] (0, 0) ≠ (0, 0) ∧
      iterVal g ((iterStep g)^[k] (0, 0)) =
        cellAt g ((k + 1) % g.numx) ((k + 1) / g.numx) ∧
      iterVal g (0, 0) = cellAt g 1 0 := by
  have h0 : 0 < g.numx := by omega
  have hmod : ∀ m : Nat, (m % g.numx + 1) % g.numx = (m + 1) % g.numx := by
    intro m
    conv_rhs => rw [Nat.add_mod, Nat.mod_eq_of_lt h]
  have hdiv : ∀ m : Nat, m / g.numx + (m % g.numx + 1) / g.numx = (m + 1) / g.numx := by
    intro m
    have hr : m % g.numx < g.numx := Nat.mod_lt _ h0
    have hqr : g.numx * (m / g.numx) + m % g.numx = m := Nat.div_add_mod m g.numx
    rcases Nat.lt_or_ge (m % g.numx + 1) g.numx with hc | hc
    · have hm1 : m + 1 = g.numx * (m / g.numx) + (m % g.numx + 1) := by omega
      rw [Nat.div_eq_of_lt hc, hm1, Nat.mul_add_div h0, Nat.div_eq_of_lt hc]
    · have hceq : m % g.numx + 1 = g.numx := by omega
      have hm1 : m + 1 = g.numx * (m / g.numx + 1) := by rw [Nat.mul_add, Nat.mul_one]; omega
      rw [hceq, Nat.div_self h0, hm1, Nat.mul_div_cancel_left _ h0]
  have hpos : ∀ m : Nat, (iterStep g)^[m] (0, 0) = (m % g.numx, m / g.numx) := by
    intro m
    induction m with
    | zero => simp
    | succ m ih =>
      rw [Function.iterate_succ_apply', ih]
      show ((m % g.numx + 1) % g.numx, m / g.numx + (m % g.numx + 1) / g.numx) = _
      rw [hmod m, hdiv m]
  refine ⟨hpos (k + 1), ?_, ?_, ?_⟩
  · rw [hpos (k + 1)]
    intro hEq
    rw [Prod.mk.injEq] at hEq
    have hq := Nat.div_add_mod (k + 1) g.numx
    rw [hEq.1, hEq.2] at hq
    omega
  · rw [iterVal, hpos k]
    show cellAt g ((k % g.numx + 1) % g.numx) (k / g.numx + (k % g.numx + 1) / g.numx) = _
    rw [hmod k, hdiv k]
  · rw [iterVal]
    show cellAt g ((0 + 1) % g.numx) (0 + (0 + 1) / g.numx) = _
    rw [Nat.zero_add, Nat.mod_eq_of_lt h, Nat.div_eq_of_lt h]

/-- Witness for C10 on a 2×2 grid with `k = 1`. -/
theorem claim10_witness :
    (iterStep ⟨2, 2, fun u v => u + 2 * v⟩)^[2] (0, 0) = (0, 1) ∧
      (iterStep ⟨2, 2, fun u v => u + 2 * v⟩)^[2] (0, 0) ≠ (0, 0) ∧
      iterVal ⟨2, 2, fun u v => u + 2 * v⟩
          ((iterStep ⟨2, 2, fun u v => u + 2 * v⟩)^[1] (0, 0)) =
        cellAt ⟨2, 2, fun u v => u + 2 * v⟩ 0 1 ∧
      iterVal ⟨2, 2, fun u v => u + 2 * v⟩ (0, 0) =
        cellAt ⟨2, 2, fun u v => u + 2 * v⟩ 1 0 :=
  claim10_iterator_skips_origin ⟨2, 2, fun u v => u + 2 * v⟩ 1 (by decide)

/-! ### Claim C5: Moore neighbor counting -/

/-- The clipped slice bounds of the Moore branch describe exactly the
in-range indices at distance at most 1 from the center coordinate. -/
theorem ico_clip (n x : Nat) (hx : x < n) :
    Finset.Ico (if 1 < x then x - 1 else 0) (if x + 1 < n then x + 2 else n) =
      (Finset.range n).filter (fun i => x ≤ i + 1 ∧ i ≤ x + 1) := by
  ext i
  simp only [Finset.mem_Ico, Finset.mem_filter, Finset.mem_range]
  split_ifs <;> omega

/-- The slice-sum-minus-center Moore count of the source equals the
spec's clipped-block count. -/
theorem mooreCount_eq_spec (g : Grid) (s x y : Nat)
    (hx : x < g.numx) (hy : y < g.numy) :
    mooreCount g s x y = specMooreCount g s x y := by
  have hpoint : ∀ i j,
      (if (x ≤ i + 1 ∧ i ≤ x + 1) ∧ (y ≤ j + 1 ∧ j ≤ y + 1) then aliveInd g s i j else 0)
        = (if (x ≤ i + 1 ∧ i ≤ x + 1 ∧ y ≤ j + 1 ∧ j ≤ y + 1) ∧ (i, j) ≠ (x, y) ∧
              g.cell i j = s then 1 else 0)
          + (if i = x ∧ j = y ∧ g.cell i j = s then 1 else 0) := by
    intro i j
    simp only [aliveInd, ne_eq, Prod.mk.injEq]
    split_ifs <;> omega
  have hcen :
      (∑ i in Finset.range g.numx, ∑ j in Finset.range g.numy,
        if i = x ∧ j = y ∧ g.cell i j = s then 1 else 0) = aliveInd g s x y := by
    have hinner : ∀ i, (∑ j in Finset.range g.numy,
        if i = x ∧ j = y ∧ g.cell i j = s then 1 else 0)
          = if i = x ∧ y < g.numy ∧ g.cell i y = s then 1 else 0 := by
      intro i
      by_cases hix : i = x
      · have hrw : ∀ j, (if i = x ∧ j = y ∧ g.cell i j = s then (1 : Nat) else 0)
            = if j = y then (if g.cell i j = s then 1 else 0) else 0 := by
          intro j
          split_ifs <;> tauto
        rw [Finset.sum_congr rfl fun j _ => hrw j,
          Finset.sum_ite_eq' (Finset.range g.numy) y fun j =>
            if g.cell i j = s then 1 else 0]
        simp only [Finset.mem_range]
        split_ifs <;> tauto
      · rw [if_neg (by tauto)]
        exact Finset.sum_eq_zero fun j _ => if_neg (by tauto)
    have hsplit : ∀ i, (if i = x ∧ y < g.numy ∧ g.cell i y = s then (1 : Nat) else 0)
        = if i = x then (if y < g.numy ∧ g.cell i y = s then 1 else 0) else 0 := by
      intro i
      split_ifs <;> tauto
    rw [Finset.sum_congr rfl fun i _ => hinner i,
      Finset.sum_congr rfl fun i _ => hsplit i,
      Finset.sum_ite_eq' (Finset.range g.numx) x fun i =>
        if y < g.numy ∧ g.cell i y = s then 1 else 0,
      if_pos (Finset.mem_range.mpr hx), aliveInd]
    split_ifs <;> tauto
  have hsum : (∑ i in Finset.Ico (if 1 < x then x - 1 else 0)
        (if x + 1 < g.numx then x + 2 else g.numx),
      ∑ j in Finset.Ico (if 1 < y then y - 1 else 0)
        (if y + 1 < g.numy then y + 2 else g.numy), aliveInd g s i j)
      = specMooreCount g s x y + aliveInd g s x y := by
    rw [ico_clip g.numx x hx, ico_clip g.numy y hy, Finset.sum_filter]
    have houter : ∀ i, (if x ≤ i + 1 ∧ i ≤ x + 1 then
        (∑ j in (Finset.range g.numy).filter (fun j => y ≤ j + 1 ∧ j ≤ y + 1),
          aliveInd g s i j) else 0)
          = ∑ j in Finset.range g.numy,
            if (x ≤ i + 1 ∧ i ≤ x + 1) ∧ (y ≤ j + 1 ∧ j ≤ y + 1) then
              aliveInd g s i j else 0 := by
      intro i
      rw [Finset.sum_filter]
      split_ifs with hpx
      · exact Finset.sum_congr rfl fun j _ => by simp [hpx]
      · symm
        exact Finset.sum_eq_zero fun j _ => if_neg (by tauto)
    rw [Finset.sum_congr rfl fun i _ => houter i]
    rw [Finset.sum_congr rfl fun i (_ : i ∈ Finset.range g.numx) =>
      (Finset.sum_congr rfl fun j (_ : j ∈ Finset.range g.numy) => hpoint i j)]
    rw [Finset.sum_congr rfl fun i (_ : i ∈ Finset.range g.numx) =>
      Finset.sum_add_distrib, Finset.sum_add_distrib, hcen]
    rfl
  simp only [mooreCount]
  rw [hsum]
  omega

/-- C5: under Moore mode, `count_living_neighbors` counts the alive cells
of the clipped 3×3 block around the center, excluding the center, with no
wraparound; on a 3×3 grid whose every cell equals the alive state the
counts form the matrix `[[3,5,3],[5,8,5],[3,5,3]]`. -/
theorem claim5_moore_count (g : Grid) (s x y p q : Nat)
    (hx : x < g.numx) (hy : y < g.numy) (hp : p < 3) (hq : q < 3) :
    mooreCount g s x y = specMooreCount g s x y ∧
      mooreCount ⟨3, 3, fun _ _ => s⟩ s p q =
        ([[3, 5, 3], [5, 8, 5], [3, 5, 3]].getD p []).getD q 0 := by
  refine ⟨mooreCount_eq_spec g s x y hx hy, ?_⟩
  interval_cases p <;> interval_cases q <;>
    simp [mooreCount, aliveInd, Finset.sum_const, Nat.card_Ico]

/-- Witness for C5 on the all-alive 3×3 grid with `s = 1`, center and an
edge cell. -/
theorem claim5_witness :
    mooreCount ⟨3, 3, fun _ _ => 1⟩ 1 1 1 = specMooreCount ⟨3, 3, fun _ _ => 1⟩ 1 1 1 ∧
      mooreCount ⟨3, 3, fun _ _ => 1⟩ 1 0 1 =
        ([[3, 5, 3], [5, 8, 5], [3, 5, 3]].getD 0 []).getD 1 0 :=
  claim5_moore_count ⟨3, 3, fun _ _ => 1⟩ 1 1 1 0 1
    (by decide) (by decide) (by decide) (by decide)

/-! ### Claim C6: Von Neumann neighbor counting -/

/-- Length of a filtered four-element list as a sum of indicators. -/
theorem filter_four {α : Type} (p : α → Bool) (a b c d : α) :
    (([a, b, c, d]).filter p).length =
      (if p a then 1 else 0) + (if p b then 1 else 0) +
        (if p c then 1 else 0) + (if p d then 1 else 0) := by
  cases hpa : p a <;> cases hpb : p b <;> cases hpc : p c <;> cases hpd : p d <;>
    simp [List.filter, hpa, hpb, hpc, hpd]

/-- The guarded indicator of the source's `if let Some(cell) = self.cell(..)`
blocks, written out on the bound checks. -/
theorem aliveOptInd_cellAt (g : Grid) (s u v : Nat) :
    aliveOptInd s (cellAt g u v) =
      if u < g.numx ∧ v < g.numy ∧ g.cell u v = s then 1 else 0 := by
  by_cases h : u < g.numx ∧ v < g.numy
  · rw [cellAt, if_pos h]
    simp only [aliveOptInd]
    split_ifs <;> tauto
  · rw [cellAt, if_neg h]
    simp only [aliveOptInd]
    rw [if_neg (by tauto)]

/-- The four guarded reads of the Von Neumann branch equal the spec's
four-neighbor filter count. -/
theorem vnCount_eq_spec (g : Grid) (s x y : Nat) :
    vnCount g s x y = specVnCount g s x y := by
  have ht1 : ((x : ℤ) - 1).toNat = x - 1 := by omega
  have ht2 : ((x : ℤ) + 1).toNat = x + 1 := by omega
  have ht3 : ((y : ℤ) - 1).toNat = y - 1 := by omega
  have ht4 : ((y : ℤ) + 1).toNat = y + 1 := by omega
  have ht5 : ((x : ℤ)).toNat = x := by omega
  have ht6 : ((y : ℤ)).toNat = y := by omega
  rw [specVnCount, filter_four]
  simp only [decide_eq_true_eq, ht1, ht2, ht3, ht4, ht5, ht6]
  simp only [vnCount, aliveOptInd_cellAt]
  have e1 : (if x ≠ 0 then
        if x - 1 < g.numx ∧ y < g.numy ∧ g.cell (x - 1) y = s then (1 : Nat) else 0
      else 0)
      = if 0 ≤ (x : ℤ) - 1 ∧ (x : ℤ) - 1 < (g.numx : ℤ) ∧ 0 ≤ (y : ℤ) ∧
          (y : ℤ) < (g.numy : ℤ) ∧ g.cell (x - 1) y = s then 1 else 0 := by
    split_ifs <;> omega
  have e2 : (if x + 1 < g.numx ∧ y < g.numy ∧ g.cell (x + 1) y = s then (1 : Nat) else 0)
      = if 0 ≤ (x : ℤ) + 1 ∧ (x : ℤ) + 1 < (g.numx : ℤ) ∧ 0 ≤ (y : ℤ) ∧
          (y : ℤ) < (g.numy : ℤ) ∧ g.cell (x + 1) y = s then 1 else 0 := by
    split_ifs <;> omega
  have e3 : (if y ≠ 0 then
        if x < g.numx ∧ y - 1 < g.numy ∧ g.cell x (y - 1) = s then (1 : Nat) else 0
      else 0)
      = if 0 ≤ (x : ℤ) ∧ (x : ℤ) < (g.numx : ℤ) ∧ 0 ≤ (y : ℤ) - 1 ∧
          (y : ℤ) - 1 < (g.numy : ℤ) ∧ g.cell x (y - 1) = s then 1 else 0 := by
    split_ifs <;> omega
  have e4 : (if x < g.numx ∧ y + 1 < g.numy ∧ g.cell x (y + 1) = s then (1 : Nat) else 0)
      = if 0 ≤ (x : ℤ) ∧ (x : ℤ) < (g.numx : ℤ) ∧ 0 ≤ (y : ℤ) + 1 ∧
          (y : ℤ) + 1 < (g.numy : ℤ) ∧ g.cell x (y + 1) = s then 1 else 0 := by
    split_ifs <;> omega
  rw [e1, e2, e3, e4]

/-- C6: under Von Neumann mode, `count_living_neighbors` counts exactly
the in-grid axis-adjacent cells equal to the alive state, omitting
out-of-grid neighbors; on a 3×3 grid whose every cell equals the alive
state the counts form the matrix `[[2,3,2],[3,4,3],[2,3,2]]`. -/
theorem claim6_von_neumann_count (g : Grid) (s x y p q : Nat)
    (hp : p < 3) (hq : q < 3) :
    vnCount g s x y = specVnCount g s x y ∧
      vnCount ⟨3, 3, fun _ _ => s⟩ s p q =
        ([[2, 3, 2], [3, 4, 3], [2, 3, 2]].getD p []).getD q 0 := by
  refine ⟨vnCount_eq_spec g s x y, ?_⟩
  interval_cases p <;> interval_cases q <;>
    norm_num [vnCount, aliveOptInd_cellAt]

/-- Witness for C6 on the all-alive 3×3 grid with `s = 1`, center and an
edge cell. -/
theorem claim6_witness :
    vnCount ⟨3, 3, fun _ _ => 1⟩ 1 1 1 = specVnCount ⟨3, 3, fun _ _ => 1⟩ 1 1 1 ∧
      vnCount ⟨3, 3, fun _ _ => 1⟩ 1 1 0 =
        ([[2, 3, 2], [3, 4, 3], [2, 3, 2]].getD 1 []).getD 0 0 :=
  claim6_von_neumann_count ⟨3, 3, fun _ _ => 1⟩ 1 1 1 1 0 (by decide) (by decide)

end GoL
